import Mathlib

/-!
Verification development for the jelli.fit API core (event identifier
allocation, slug encoding, request orchestration and the cleanup task).

The Rust routes in `api/src/routes/event.rs` and `api/src/routes/tasks.rs`
are shallowly embedded below.  Machine integers that can overflow in the
Rust dependencies (the `punycode` crate works on `u32`) are modelled as
`Nat` with explicit bound checks against `2^32 - 1`.  Randomness
(`rand::thread_rng`) is modelled by an explicit stream of draws
`rng : Nat → Nat`; a uniform draw from a range of size `m` is modelled as
`base + r % m`.  The storage adaptor (`common::Adaptor`, an external
collaborator of the repository) is a record of state-passing functions.
-/

/-- The set of characters matched by Rust `char::is_whitespace` (the
Unicode `White_Space` property) and by the `regex` crate's `\s` class,
written out as code points. -/
def isRustWs (c : Char) : Bool :=
  if (9 ≤ c.toNat ∧ c.toNat ≤ 13) ∨ c.toNat = 32 ∨ c.toNat = 133 ∨ c.toNat = 160 ∨
      c.toNat = 5760 ∨ (8192 ≤ c.toNat ∧ c.toNat ≤ 8202) ∨ c.toNat = 8232 ∨
      c.toNat = 8233 ∨ c.toNat = 8239 ∨ c.toNat = 8287 ∨ c.toNat = 12288
  then true else false

/-- Rust `char::is_ascii_alphanumeric`. -/
def isAsciiAlnum (c : Char) : Bool :=
  if (97 ≤ c.toNat ∧ c.toNat ≤ 122) ∨ (65 ≤ c.toNat ∧ c.toNat ≤ 90) ∨
      (48 ≤ c.toNat ∧ c.toNat ≤ 57)
  then true else false

/-- Lowercase ASCII alphanumeric characters (the character class the spec
claims for slug output, hyphen aside). -/
def isLowerAlnumChar (c : Char) : Bool :=
  if (97 ≤ c.toNat ∧ c.toNat ≤ 122) ∨ (48 ≤ c.toNat ∧ c.toNat ≤ 57)
  then true else false

/-- A character that is not an ASCII uppercase letter. -/
def notUpper (c : Char) : Bool :=
  if 65 ≤ c.toNat ∧ c.toNat ≤ 90 then false else true

/-- Models Rust `str::to_lowercase` on a single character, restricted to
the ASCII case mapping (`'A'..'Z'` map to `'a'..'z'`, everything else is
unchanged).  Unicode special casings never produce an ASCII uppercase
letter, and non-ASCII characters are non-basic for punycode, so this
restriction does not affect the character-class properties proved here. -/
def toLowerChar (c : Char) : Char :=
  if 65 ≤ c.toNat ∧ c.toNat ≤ 90 then Char.ofNat (c.toNat + 32) else c

/-- Rust `str::trim` on a character list: drop `White_Space` characters
from both ends. -/
def trimList (l : List Char) : List Char :=
  ((l.dropWhile isRustWs).reverse.dropWhile isRustWs).reverse

/-- Rust `str::trim` on a `String`. -/
def rustTrim (s : String) : String :=
  String.mk (trimList s.data)

/-! ### Punycode (RFC 3492), as implemented by the `punycode` crate

`punycode::encode` works on `u32` arithmetic and fails (returns `Err`)
when `delta` overflows; we model the overflow check against
`2^32 - 1` explicitly and return `none` on failure.  The outer loop of
the RFC is driven by fuel (one unit per outer iteration, which always
inserts at least one code point, so `input.length + 1` units suffice);
running out of fuel also yields `none`, which is unreachable for inputs
the Rust code can produce. -/

/-- Largest `u32` value. -/
def u32Max : Nat := 4294967295

/-- RFC 3492 digit output: `0..25` map to `'a'..'z'`, `26..35` map to
`'0'..'9'`. -/
def encodeDigit (d : Nat) : Char :=
  if d < 26 then Char.ofNat (d + 97) else Char.ofNat (d - 26 + 48)

/-- The scaling loop inside RFC 3492 `adapt`:
`while delta > ((base - tmin) * tmax) / 2 { delta /= base - tmin; k += base }`
with `base = 36`, `tmin = 1`, `tmax = 26`. -/
def adaptLoop (delta k : Nat) : Nat × Nat :=
  if h : 455 < delta then adaptLoop (delta / 35) (k + 36) else (delta, k)
termination_by delta
decreasing_by
  exact Nat.div_lt_self (by omega) (by omega)

/-- RFC 3492 bias adaptation (`damp = 700`, `skew = 38`). -/
def adapt (delta numpoints : Nat) (firsttime : Bool) : Nat :=
  let d1 := if firsttime then delta / 700 else delta / 2
  let d2 := d1 + d1 / numpoints
  let p := adaptLoop d2 0
  p.2 + 36 * p.1 / (p.1 + 38)

/-- RFC 3492 digit threshold `t` for position `k` given `bias`
(`tmin = 1`, `tmax = 26`). -/
def threshold (bias k : Nat) : Nat :=
  if k ≤ bias then 1 else if bias + 26 ≤ k then 26 else k - bias

/-- The generalised variable-length integer output of RFC 3492: emit
digits of `q` for thresholds starting at position `k`. -/
def encodeVarInt (bias k q : Nat) : List Char :=
  let t := threshold bias k
  if _h : q < t then [encodeDigit q]
  else encodeDigit (t + (q - t) % (36 - t)) :: encodeVarInt bias (k + 36) ((q - t) / (36 - t))
termination_by q
decreasing_by
  have h1 : 1 ≤ threshold bias k ∧ threshold bias k ≤ 26 := by
    unfold threshold
    split
    · omega
    · split <;> omega
  have h3 : (q - threshold bias k) / (36 - threshold bias k) ≤ q - threshold bias k :=
    Nat.div_le_self _ _
  omega

/-- The inner `for c in input` loop of RFC 3492 encoding, at the current
target code point `n`.  Threads `(h, delta, bias, out)`; fails on `u32`
overflow of `delta`. -/
def punyInner (b : Nat) : List Nat → Nat → Nat → Nat → Nat → List Char →
    Option (Nat × Nat × Nat × List Char)
  | [], _, hcount, delta, bias, out => some (hcount, delta, bias, out)
  | c :: cs, n, hcount, delta, bias, out =>
    let delta1 := if c < n then delta + 1 else delta
    if u32Max < delta1 then none
    else if c = n then
      punyInner b cs n (hcount + 1) 0 (adapt delta1 (hcount + 1) (hcount == b))
        (out ++ encodeVarInt bias 36 delta1)
    else
      punyInner b cs n hcount delta1 bias out

/-- The outer `while h < input.length` loop of RFC 3492 encoding. -/
def punyOuter (input : List Nat) (b : Nat) :
    Nat → Nat → Nat → Nat → Nat → List Char → Option (List Char)
  | 0, _, hcount, _, _, out =>
    if input.length ≤ hcount then some out else none
  | fuel + 1, n, hcount, delta, bias, out =>
    if input.length ≤ hcount then some out
    else
      match (input.filter (fun c => n ≤ c)).min? with
      | none => none
      | some m =>
        let delta1 := delta + (m - n) * (hcount + 1)
        if u32Max < delta1 then none
        else
          match punyInner b input m hcount delta1 bias out with
          | none => none
          | some (h1, delta2, bias1, out1) =>
            punyOuter input b fuel (m + 1) h1 (delta2 + 1) bias1 out1

/-- RFC 3492 punycode encoding of a list of code points
(`initial_n = 128`, `initial_bias = 72`): the basic code points, a
delimiter `'-'` when there is at least one of them, then the encoded
deltas.  `none` models the `Err` of `punycode::encode`. -/
def punycodeEncode (input : List Nat) : Option (List Char) :=
  let basic := input.filter (fun c => c < 128)
  let b := basic.length
  let out := basic.map Char.ofNat ++ (if 0 < b then ['-'] else [])
  punyOuter input b (input.length + 1) 128 b 0 72 out

/-! ### The slug encoder (`encode_name` in `event.rs`) -/

/-- One pass of the `regex` replacement of `\s+` by `"-"`: the flag
records whether the previous character was whitespace (so that a run is
replaced by a single hyphen). -/
def collapseWsAux : Bool → List Char → List Char
  | _, [] => []
  | inWs, c :: cs =>
    if isRustWs c then
      if inWs then collapseWsAux true cs else '-' :: collapseWsAux true cs
    else
      c :: collapseWsAux false cs

/-- The replacement `Regex::new(r"\s+").replace_all(s, "-")`: every maximal run of
whitespace becomes a single hyphen. -/
def collapseWs (l : List Char) : List Char :=
  collapseWsAux false l

/-- The function `encode_name` from `event.rs`, on character lists:
lowercase the trimmed input, punycode-encode it (empty string on
failure, matching `unwrap_or`), trim, strip every character that is not
ASCII alphanumeric and not a space, then replace whitespace runs by
hyphens. -/
def encodeNameList (name : List Char) : List Char :=
  let lowered := (trimList name).map toLowerChar
  let pc := (punycodeEncode (lowered.map Char.toNat)).getD []
  let pc3 := (trimList pc).filter (fun c => isAsciiAlnum c || c == ' ')
  collapseWs pc3

/-- The function `encode_name` from `event.rs`. -/
def encode_name (name : String) : String :=
  String.mk (encodeNameList name.data)

/-- No two consecutive hyphens in a character list. -/
def noDoubleHyphen : List Char → Bool
  | a :: b :: rest => !(a == '-' && b == '-') && noDoubleHyphen (b :: rest)
  | _ => true

/-- The spec's claimed slug shape: only lowercase ASCII alphanumerics and
hyphens, no leading hyphen, no trailing hyphen, no duplicate hyphens. -/
def slugClaimOk (s : String) : Bool :=
  s.data.all (fun c => isLowerAlnumChar c || c == '-') &&
  (match s.data with
   | [] => true
   | c :: _ => !(c == '-')) &&
  (match s.data.getLast? with
   | none => true
   | some c => !(c == '-')) &&
  noDoubleHyphen s.data

/-- The slug component of an identifier `<slug>-<6-digit-number>`
(drop the 7 trailing characters `-NNNNNN`). -/
def slugOf (s : String) : String :=
  s.dropRight 7

/-! ### Name and identifier generation (`event.rs`) -/

/-- The function `generate_name` from `event.rs`.  The two word lists are the resource
files `res/adjectives.json` and `res/jellies.json`, which are not part of
the sources here, so they are passed as parameters; `SliceRandom::choose`
(a uniform draw of one element) is modelled as indexing by `r % length`,
with `""` for the empty list (where the Rust `unwrap` would panic). -/
def generate_name (adjectives jellies : List String) (r1 r2 : Nat) : String :=
  adjectives.getD (r1 % adjectives.length) "" ++ " " ++
    jellies.getD (r2 % jellies.length) "" ++ " Jelly"

/-- The function `generate_id` from `event.rs`: slug-encode the name; if the result is
empty once hyphens are removed (`id.replace('-', "").is_empty()`,
modelled as filtering the hyphens out of the character list), encode a
freshly generated name instead; then append a uniform random number from
`100000..=999999` (`thread_rng().gen_range`, modelled as
`100000 + r % 900000`).  `rng` is the stream of random draws and `k` the
index of the next draw; the index of the first unused draw is returned
with the identifier. -/
def generate_id (adjectives jellies : List String) (rng : Nat → Nat) (k : Nat)
    (name : String) : String × Nat :=
  if ((encode_name name).data.filter (fun c => ! (c == '-'))).isEmpty then
    (encode_name (generate_name adjectives jellies (rng k) (rng (k + 1))) ++ "-" ++
      toString (100000 + rng (k + 2) % 900000), k + 3)
  else
    (encode_name name ++ "-" ++ toString (100000 + rng k % 900000), k + 1)

/-! ### Error type, payloads and the storage adaptor contract

`errors.rs` and `payloads.rs` are not among the sources; `ApiError` is
modelled from its uses in the routes and from the spec's error taxonomy
(not-found, not-authorized, adaptor failure), with the adaptor's own
error payload kept opaque.  The `common::Adaptor` trait is the external
Storage Adaptor Contract of the spec; it is modelled as a record of
state-passing functions over an abstract backend state `σ`, each of
which may fail with an opaque error. -/

inductive ApiError where
  | NotFound
  | NotAuthorized
  | AdaptorError
deriving DecidableEq, Repr

/-- The `common::Event` entity (timestamps as integers). -/
structure Event where
  id : String
  name : String
  created_at : Int
  visited_at : Int
  times : List String
  timezone : String
deriving DecidableEq, Repr

/-- The body of a create-event request (`EventInput` in `payloads.rs`,
modelled from its uses: an optional name plus the candidate times and
timezone that are copied into the event verbatim). -/
structure EventInput where
  name : Option String
  times : List String
  timezone : String
deriving DecidableEq, Repr

/-- The result of the adaptor's bulk delete. -/
structure DeleteResult where
  event_count : Nat
  person_count : Nat
deriving DecidableEq, Repr

/-- The Storage Adaptor Contract operations used by the routes under
verification. -/
structure AdaptorOps (σ : Type) where
  get_event : String → σ → Except Unit (Option Event) × σ
  create_event : Event → σ → Except Unit Event × σ
  increment_stat_event_count : σ → Except Unit Unit × σ
  delete_events : Int → σ → Except Unit DeleteResult × σ

/-! ### Request orchestrators (`event.rs`, `tasks.rs`) -/

/-- The uniqueness retry loop of `create_event` in `event.rs`:
`while adaptor.get_event(id).is_some() { id = generate_id(&name) }`.
The Rust loop is unbounded; it is driven here by fuel, with `none`
standing for not having terminated within the given fuel.  On success
the chosen identifier, the adaptor state and the next random-draw index
are returned. -/
def allocate_id {σ : Type} (A : AdaptorOps σ) (adjectives jellies : List String)
    (rng : Nat → Nat) (name : String) :
    Nat → String → Nat → σ → Option (Except ApiError String × σ × Nat)
  | 0, _, _, _ => none
  | fuel + 1, id, k, s =>
    match A.get_event id s with
    | (Except.error _, s1) => some (Except.error ApiError.AdaptorError, s1, k)
    | (Except.ok (some _), s1) =>
      let p := generate_id adjectives jellies rng k name
      allocate_id A adjectives jellies rng name fuel p.1 p.2 s1
    | (Except.ok none, s1) => some (Except.ok id, s1, k)

/-- The name resolution at the top of `create_event` in `event.rs`:
`match input.name { Some(x) if !x.is_empty() => x.trim().to_string(),
_ => generate_name() }`.  Note the emptiness guard inspects the input
before trimming.  Returns the resolved name together with the index of
the next unused random draw. -/
def resolve_name (adjectives jellies : List String) (rng : Nat → Nat)
    (input : EventInput) : String × Nat :=
  match input.name with
  | some x =>
    if x ≠ "" then (rustTrim x, 0)
    else (generate_name adjectives jellies (rng 0) (rng 1), 2)
  | none => (generate_name adjectives jellies (rng 0) (rng 1), 2)

/-- The route `create_event` from `event.rs`: resolve the display name (the trimmed
user input when one was supplied and non-empty, a generated name
otherwise), allocate an identifier, persist the event with the current
timestamp for both `created_at` and `visited_at`, then increment the
global event counter.  Returns the 201 status with the event the adaptor
handed back.  Adaptor failures map to `ApiError.AdaptorError`. -/
def create_event {σ : Type} (A : AdaptorOps σ) (adjectives jellies : List String)
    (rng : Nat → Nat) (fuel : Nat) (now : Int) (input : EventInput) (s : σ) :
    Option (Except ApiError (Nat × Event) × σ) :=
  let resolved := resolve_name adjectives jellies rng input
  let name := resolved.1
  let g := generate_id adjectives jellies rng resolved.2 name
  match allocate_id A adjectives jellies rng name fuel g.1 g.2 s with
  | none => none
  | some (Except.error e, s1, _) => some (Except.error e, s1)
  | some (Except.ok id, s1, _) =>
    match A.create_event
        { id := id, name := name, created_at := now, visited_at := now,
          times := input.times, timezone := input.timezone } s1 with
    | (Except.error _, s2) => some (Except.error ApiError.AdaptorError, s2)
    | (Except.ok event, s2) =>
      match A.increment_stat_event_count s2 with
      | (Except.error _, s3) => some (Except.error ApiError.AdaptorError, s3)
      | (Except.ok _, s3) => some (Except.ok (201, event), s3)

/-- The route `get_event` from `event.rs`: fetch by identifier; an adaptor failure
becomes `AdaptorError`, an absent event becomes `NotFound`. -/
def get_event {σ : Type} (A : AdaptorOps σ) (event_id : String) (s : σ) :
    Except ApiError Event × σ :=
  match A.get_event event_id s with
  | (Except.error _, s1) => (Except.error ApiError.AdaptorError, s1)
  | (Except.ok (some event), s1) => (Except.ok event, s1)
  | (Except.ok none, s1) => (Except.error ApiError.NotFound, s1)

/-- One day of `chrono::Duration::days`, with timestamps in seconds. -/
def days (n : Int) : Int := n * 86400

/-- The body of the cleanup task after the authorization gate
(`tasks.rs:36` onwards): delete every event whose `visited_at` is older
than now minus 90 days.  Rust logs the returned counts and returns `()`;
the counts are returned here so the statement about them can be made. -/
def cleanup_body {σ : Type} (A : AdaptorOps σ) (now : Int) (s : σ) :
    Except ApiError DeleteResult × σ :=
  match A.delete_events (now - days 90) s with
  | (Except.error _, s1) => (Except.error ApiError.AdaptorError, s1)
  | (Except.ok r, s1) => (Except.ok r, s1)

/-- The route `cleanup` from `tasks.rs`.  `cron_key_env` is the `CRON_KEY`
environment variable (`none` when unset, mirroring `env::var` returning
`Err`); `x_cron_key` is the request's `X-Cron-Key` header.  The check is
exactly the source's: only when the header is present and the configured
key is non-empty and differs from it is the call rejected. -/
def cleanup {σ : Type} (A : AdaptorOps σ) (cron_key_env x_cron_key : Option String)
    (now : Int) (s : σ) : Except ApiError DeleteResult × σ :=
  match x_cron_key with
  | some cron_key =>
    match cron_key_env with
    | some key =>
      if key ≠ "" ∧ cron_key ≠ key then (Except.error ApiError.NotAuthorized, s)
      else cleanup_body A now s
    | none => cleanup_body A now s
  | none => cleanup_body A now s

/-! ### Concrete adaptor instantiations used in the theorems -/

/-- A concrete storage backend state: an association list of events, the
event counter, a flag injecting a failure into the counter increment, and
instrumentation counting the adaptor calls made. -/
structure Store where
  events : List (String × Event)
  people : List (String × String)
  counter : Nat
  inc_fails : Bool
  get_calls : Nat
  delete_calls : Nat
deriving DecidableEq, Repr

/-- Event lookup in the association list. -/
def lookupEvent (l : List (String × Event)) (id : String) : Option Event :=
  (l.find? (fun p => p.1 == id)).map Prod.snd

/-- The Storage Adaptor Contract over `Store`.  Modelled from the spec:
the adaptor implementation itself is an external collaborator; per §6,
`create_event` assigns no new fields, and per §4.4/§8 `delete_events`
removes exactly the events whose visited timestamp is strictly older than
the cutoff, cascading to their people and reporting both counts. -/
def storeAdaptor : AdaptorOps Store where
  get_event id s :=
    (Except.ok (lookupEvent s.events id), { s with get_calls := s.get_calls + 1 })
  create_event e s :=
    (Except.ok e, { s with events := (e.id, e) :: s.events })
  increment_stat_event_count s :=
    if s.inc_fails then (Except.error (), s)
    else (Except.ok (), { s with counter := s.counter + 1 })
  delete_events before s :=
    let removed := s.events.filter (fun p => decide (p.2.visited_at < before))
    let removedIds := removed.map Prod.fst
    (Except.ok { event_count := removed.length,
                 person_count := (s.people.filter (fun q => removedIds.contains q.1)).length },
     { s with events := s.events.filter (fun p => ! decide (p.2.visited_at < before)),
              people := s.people.filter (fun q => ! removedIds.contains q.1),
              delete_calls := s.delete_calls + 1 })

/-- A stateless adaptor over a fixed pure store: probing does not change
the backend, and probes never fail. -/
def pureAdaptor (store : String → Option Event) : AdaptorOps Unit where
  get_event id s := (Except.ok (store id), s)
  create_event e s := (Except.ok e, s)
  increment_stat_event_count s := (Except.ok (), s)
  delete_events _ s := (Except.ok { event_count := 0, person_count := 0 }, s)

/-- An oracle backend whose state is the number of probes made so far:
the first `takenUntil` probes report the identifier as taken, later ones
report it free. -/
def probeCountAdaptor (takenUntil : Nat) (dummy : Event) : AdaptorOps Nat where
  get_event _ n := (Except.ok (if n < takenUntil then some dummy else none), n + 1)
  create_event e n := (Except.ok e, n)
  increment_stat_event_count n := (Except.ok (), n)
  delete_events _ n := (Except.ok { event_count := 0, person_count := 0 }, n)

/-- An adaptor all of whose operations fail. -/
def failAdaptor : AdaptorOps Unit where
  get_event _ s := (Except.error (), s)
  create_event _ s := (Except.error (), s)
  increment_stat_event_count s := (Except.error (), s)
  delete_events _ s := (Except.error (), s)

/-! ### Concrete fixtures used in the theorems and witnesses -/

/-- The identity draw stream: the k-th random draw is `k`. -/
def idStream : Nat → Nat := fun i => i

def dummyEvent : Event :=
  { id := "d", name := "d", created_at := 0, visited_at := 0, times := [], timezone := "" }

def emptyStore : Store :=
  { events := [], people := [], counter := 0, inc_fails := false,
    get_calls := 0, delete_calls := 0 }

def oldEvent : Event :=
  { id := "old-100000", name := "Old", created_at := 0, visited_at := 0, times := [],
    timezone := "UTC" }

/-- A store holding one event whose `visited_at` lies 100 days before the
`now` used in the cleanup theorems, together with one person of that
event. -/
def oldStore : Store :=
  { events := [("old-100000", oldEvent)], people := [("old-100000", "bob")], counter := 0,
    inc_fails := false, get_calls := 0, delete_calls := 0 }

/-- A create-event request whose name is a whitespace-only string. -/
def wsInput : EventInput := { name := some " ", times := [], timezone := "UTC" }

/-- A create-event request without a name. -/
def noneInput : EventInput := { name := none, times := [], timezone := "UTC" }

/-- An empty store whose counter increments fail. -/
def incFailStore : Store :=
  { events := [], people := [], counter := 7, inc_fails := true,
    get_calls := 0, delete_calls := 0 }

/-- A pure store taking exactly the identifier "b". -/
def c5store : String → Option Event := fun i => if i = "b" then some dummyEvent else none

/-- The outcome of creating an event with no name against `emptyStore`
(word lists `["red"]`, `["fox"]`, draws `idStream`). -/
def c3event : Event :=
  { id := "red-fox-jelly-100002", name := "red fox Jelly", created_at := 0, visited_at := 0,
    times := [], timezone := "UTC" }

def c3store1 : Store :=
  { events := [("red-fox-jelly-100002", c3event)], people := [], counter := 1,
    inc_fails := false, get_calls := 1, delete_calls := 0 }

/-- The event record `create_event` hands to the adaptor, as a function
of the allocated identifier, the resolved name and the current time. -/
def mkEvent (id name : String) (now : Int) (input : EventInput) : Event :=
  { id := id, name := name, created_at := now, visited_at := now,
    times := input.times, timezone := input.timezone }

/-- The outcome of the no-name create-event run against `incFailStore`. -/
def c7pair : Except ApiError (Nat × Event) × Store :=
  (create_event storeAdaptor ["red"] ["fox"] idStream 3 0 noneInput incFailStore).getD
    (Except.error ApiError.NotFound, incFailStore)

/-! ### Helper lemmas about characters and the punycode output -/

theorem toNat_ofNat_small : ∀ n : Nat, n < 128 → (Char.ofNat n).toNat = n := by decide

theorem threshold_pos (bias k : Nat) : 1 ≤ threshold bias k := by
  unfold threshold
  split
  · omega
  · split <;> omega

theorem threshold_le (bias k : Nat) : threshold bias k ≤ 26 := by
  unfold threshold
  split
  · omega
  · split <;> omega

theorem encodeDigit_lower (d : Nat) (hd : d ≤ 35) : isLowerAlnumChar (encodeDigit d) = true := by
  interval_cases d <;> decide

theorem lower_notUpper {c : Char} (h : isLowerAlnumChar c = true) : notUpper c = true := by
  unfold isLowerAlnumChar at h
  unfold notUpper
  split at h
  · rename_i hr
    split
    · rename_i hu
      omega
    · rfl
  · cases h

theorem encodeVarInt_lower : ∀ (q bias k : Nat) (c : Char),
    c ∈ encodeVarInt bias k q → isLowerAlnumChar c = true := by
  intro q
  induction q using Nat.strong_induction_on with
  | _ q ih =>
    intro bias k c hc
    rw [encodeVarInt] at hc
    have ht1 := threshold_pos bias k
    have ht2 := threshold_le bias k
    split at hc
    · rename_i hq
      rw [List.mem_singleton] at hc
      subst hc
      exact encodeDigit_lower _ (by omega)
    · rename_i hq
      rcases List.mem_cons.mp hc with rfl | hc2
      · have hmod : (q - threshold bias k) % (36 - threshold bias k) < 36 - threshold bias k :=
          Nat.mod_lt _ (by omega)
        exact encodeDigit_lower _ (by omega)
      · have hdiv : (q - threshold bias k) / (36 - threshold bias k) ≤ q - threshold bias k :=
          Nat.div_le_self _ _
        exact ih _ (by omega) _ _ c hc2

theorem punyInner_notUpper (b : Nat) :
    ∀ (cs : List Nat) (n hcount delta bias : Nat) (out : List Char)
      (res : Nat × Nat × Nat × List Char),
      punyInner b cs n hcount delta bias out = some res →
      (∀ c ∈ out, notUpper c = true) → ∀ c ∈ res.2.2.2, notUpper c = true := by
  intro cs
  induction cs with
  | nil =>
    intro n hcount delta bias out res heq hout
    simp only [punyInner, Option.some.injEq] at heq
    subst heq
    exact hout
  | cons a as ih =>
    intro n hcount delta bias out res heq hout
    simp only [punyInner] at heq
    by_cases h1 : a < n <;> simp only [h1, ite_true, ite_false] at heq
    · by_cases h2 : u32Max < delta + 1 <;> simp only [h2, ite_true, ite_false] at heq
      · cases heq
      · by_cases h3 : a = n <;> simp only [h3, ite_true, ite_false] at heq
        · refine ih _ _ _ _ _ _ heq ?_
          intro c hc
          rcases List.mem_append.mp hc with hx | hx
          · exact hout c hx
          · exact lower_notUpper (encodeVarInt_lower _ _ _ c hx)
        · exact ih _ _ _ _ _ _ heq hout
    · by_cases h2 : u32Max < delta <;> simp only [h2, ite_true, ite_false] at heq
      · cases heq
      · by_cases h3 : a = n <;> simp only [h3, ite_true, ite_false] at heq
        · refine ih _ _ _ _ _ _ heq ?_
          intro c hc
          rcases List.mem_append.mp hc with hx | hx
          · exact hout c hx
          · exact lower_notUpper (encodeVarInt_lower _ _ _ c hx)
        · exact ih _ _ _ _ _ _ heq hout

theorem punyOuter_notUpper (input : List Nat) (b : Nat) :
    ∀ (fuel n hcount delta bias : Nat) (out res : List Char),
      punyOuter input b fuel n hcount delta bias out = some res →
      (∀ c ∈ out, notUpper c = true) → ∀ c ∈ res, notUpper c = true := by
  intro fuel
  induction fuel with
  | zero =>
    intro n hcount delta bias out res heq hout
    simp only [punyOuter] at heq
    split at heq
    · cases heq
      exact hout
    · cases heq
  | succ fuel ih =>
    intro n hcount delta bias out res heq hout
    simp only [punyOuter] at heq
    split at heq
    · cases heq
      exact hout
    · rcases hmin : (input.filter (fun c => decide (n ≤ c))).min? with _ | m
      · rw [hmin] at heq
        cases heq
      · rw [hmin] at heq
        by_cases h2 : u32Max < delta + (m - n) * (hcount + 1) <;>
          simp only [h2, ite_true, ite_false] at heq
        · cases heq
        · rcases hinner : punyInner b input m hcount (delta + (m - n) * (hcount + 1)) bias out
            with _ | ⟨hx, delta2, bias1, out1⟩
          · rw [hinner] at heq
            cases heq
          · rw [hinner] at heq
            exact ih _ _ _ _ _ _ heq
              (punyInner_notUpper b input m hcount _ bias out _ hinner hout)

theorem punycodeEncode_notUpper (codes : List Nat) (out : List Char)
    (heq : punycodeEncode codes = some out)
    (hcodes : ∀ n ∈ codes, n < 128 → ¬(65 ≤ n ∧ n ≤ 90)) :
    ∀ c ∈ out, notUpper c = true := by
  unfold punycodeEncode at heq
  refine punyOuter_notUpper codes _ _ _ _ _ _ _ _ heq ?_
  intro c hc
  rcases List.mem_append.mp hc with h1 | h2
  · rcases List.mem_map.mp h1 with ⟨n, hn, rfl⟩
    have hfil := List.mem_filter.mp hn
    have hlt : n < 128 := by simpa using hfil.2
    unfold notUpper
    rw [toNat_ofNat_small n hlt]
    split
    · rename_i hu
      exact absurd hu (hcodes n hfil.1 hlt)
    · rfl
  · split at h2
    · rw [List.mem_singleton] at h2
      subst h2
      decide
    · cases h2

theorem toLowerChar_notUpper (c : Char) : notUpper (toLowerChar c) = true := by
  unfold toLowerChar
  split
  · rename_i hr
    unfold notUpper
    rw [toNat_ofNat_small (c.toNat + 32) (by omega)]
    split
    · omega
    · rfl
  · rename_i hr
    unfold notUpper
    split
    · rename_i hu
      exact absurd hu hr
    · rfl

theorem toLowerChar_lt_128 {c : Char} (h : c.toNat < 128) : (toLowerChar c).toNat < 128 := by
  unfold toLowerChar
  split
  · rename_i hr
    rw [toNat_ofNat_small (c.toNat + 32) (by omega)]
    omega
  · exact h

theorem toLowerChar_alnum {c : Char} (h : isAsciiAlnum c = true) :
    isAsciiAlnum (toLowerChar c) = true := by
  unfold toLowerChar
  split
  · rename_i hr
    unfold isAsciiAlnum
    rw [toNat_ofNat_small (c.toNat + 32) (by omega)]
    split
    · rfl
    · rename_i hn
      omega
  · exact h

theorem mem_dropWhile_of_not {α : Type} {p : α → Bool} {c : α} :
    ∀ {l : List α}, c ∈ l → p c = false → c ∈ l.dropWhile p := by
  intro l
  induction l with
  | nil =>
    intro h _
    cases h
  | cons a as ih =>
    intro hmem hp
    rw [List.dropWhile_cons]
    split
    · rename_i ha
      rcases List.mem_cons.mp hmem with rfl | hmem1
      · rw [hp] at ha
        cases ha
      · exact ih hmem1 hp
    · exact hmem

theorem mem_trimList {c : Char} {l : List Char} (hmem : c ∈ l) (hw : isRustWs c = false) :
    c ∈ trimList l := by
  unfold trimList
  rw [List.mem_reverse]
  refine mem_dropWhile_of_not ?_ hw
  rw [List.mem_reverse]
  exact mem_dropWhile_of_not hmem hw

theorem trimList_subset {c : Char} {l : List Char} (h : c ∈ trimList l) : c ∈ l := by
  unfold trimList at h
  rw [List.mem_reverse] at h
  have h1 := (List.dropWhile_sublist _).subset h
  rw [List.mem_reverse] at h1
  exact (List.dropWhile_sublist _).subset h1

theorem mem_collapseWsAux {c : Char} :
    ∀ (flag : Bool) (l : List Char), c ∈ collapseWsAux flag l →
      c = '-' ∨ (c ∈ l ∧ isRustWs c = false) := by
  intro flag l
  induction l generalizing flag with
  | nil =>
    intro h
    cases h
  | cons a as ih =>
    intro h
    simp only [collapseWsAux] at h
    by_cases hw : isRustWs a <;> simp only [hw, ite_true, ite_false] at h
    · cases flag with
      | true =>
        rcases ih true h with h1 | ⟨h2, h3⟩
        · exact Or.inl h1
        · exact Or.inr ⟨List.mem_cons_of_mem a h2, h3⟩
      | false =>
        rcases List.mem_cons.mp h with rfl | h1
        · exact Or.inl rfl
        · rcases ih true h1 with h2 | ⟨h3, h4⟩
          · exact Or.inl h2
          · exact Or.inr ⟨List.mem_cons_of_mem a h3, h4⟩
    · rcases List.mem_cons.mp h with rfl | h1
      · exact Or.inr ⟨List.mem_cons_self _ _, by simpa using hw⟩
      · rcases ih false h1 with h2 | ⟨h3, h4⟩
        · exact Or.inl h2
        · exact Or.inr ⟨List.mem_cons_of_mem a h3, h4⟩

theorem mem_collapseWsAux_of_mem {c : Char} (hw : isRustWs c = false) :
    ∀ (flag : Bool) (l : List Char), c ∈ l → c ∈ collapseWsAux flag l := by
  intro flag l
  induction l generalizing flag with
  | nil =>
    intro h
    cases h
  | cons a as ih =>
    intro h
    simp only [collapseWsAux]
    by_cases ha : isRustWs a <;> simp only [ha, ite_true, ite_false]
    · rcases List.mem_cons.mp h with rfl | h1
      · rw [hw] at ha
        cases ha
      · cases flag with
        | true => exact ih true h1
        | false => exact List.mem_cons_of_mem _ (ih true h1)
    · rcases List.mem_cons.mp h with rfl | h1
      · exact List.mem_cons_self _ _
      · exact List.mem_cons_of_mem _ (ih false h1)

theorem collapseWsAux_true_head :
    ∀ (l : List Char), (∀ c ∈ l, ¬ c = '-') →
      ∀ (h : Char) (t : List Char), collapseWsAux true l = h :: t → ¬ h = '-' := by
  intro l
  induction l with
  | nil =>
    intro _ h t heq
    cases heq
  | cons a as ih =>
    intro hno h t heq
    simp only [collapseWsAux] at heq
    by_cases ha : isRustWs a <;> simp only [ha, ite_true, ite_false] at heq
    · exact ih (fun c hc => hno c (List.mem_cons_of_mem a hc)) h t heq
    · cases heq
      exact hno a (List.mem_cons_self a as)

theorem noDouble_cons_of_ne {c : Char} {l : List Char} (hc : ¬ c = '-')
    (h : noDoubleHyphen l = true) : noDoubleHyphen (c :: l) = true := by
  cases l with
  | nil => rfl
  | cons b bs =>
    simp only [noDoubleHyphen, Bool.and_eq_true, Bool.not_eq_true']
    refine ⟨?_, h⟩
    simp only [Bool.and_eq_false_iff, beq_eq_false_iff_ne]
    exact Or.inl hc

theorem noDouble_cons_hyphen {l : List Char}
    (hhead : ∀ (h : Char) (t : List Char), l = h :: t → ¬ h = '-')
    (h : noDoubleHyphen l = true) : noDoubleHyphen ('-' :: l) = true := by
  cases l with
  | nil => rfl
  | cons b bs =>
    simp only [noDoubleHyphen, Bool.and_eq_true, Bool.not_eq_true']
    refine ⟨?_, h⟩
    simp only [Bool.and_eq_false_iff, beq_eq_false_iff_ne]
    exact Or.inr (hhead b bs rfl)

theorem noDouble_collapseWsAux :
    ∀ (l : List Char) (flag : Bool), (∀ c ∈ l, ¬ c = '-') →
      noDoubleHyphen (collapseWsAux flag l) = true := by
  intro l
  induction l with
  | nil =>
    intro flag _
    rfl
  | cons a as ih =>
    intro flag hno
    have hno1 : ∀ c ∈ as, ¬ c = '-' := fun c hc => hno c (List.mem_cons_of_mem a hc)
    simp only [collapseWsAux]
    by_cases ha : isRustWs a <;> simp only [ha, ite_true, ite_false]
    · cases flag with
      | true => exact ih true hno1
      | false =>
        exact noDouble_cons_hyphen (collapseWsAux_true_head as hno1) (ih true hno1)
    · exact noDouble_cons_of_ne (hno a (List.mem_cons_self a as)) (ih false hno1)

theorem alnum_not_ws {c : Char} (h : isAsciiAlnum c = true) : isRustWs c = false := by
  unfold isAsciiAlnum at h
  unfold isRustWs
  split at h
  · rename_i hr
    split
    · rename_i hw
      omega
    · rfl
  · cases h

theorem punycodeEncode_all_basic (codes : List Nat) (h : ∀ n ∈ codes, n < 128) :
    punycodeEncode codes =
      some (codes.map Char.ofNat ++ (if 0 < codes.length then ['-'] else [])) := by
  unfold punycodeEncode
  have hfil : codes.filter (fun c => decide (c < 128)) = codes := by
    rw [List.filter_eq_self]
    intro a ha
    simpa using h a ha
  rw [hfil]
  simp only [punyOuter]
  rw [if_pos (Nat.le_refl _)]

/-! ### Claim C2: the slug encoder's output shape -/

/-- C2 (counterexample): the claimed slug shape fails.  On the input
"? a" the encoder returns "-a": punycode maps "? a" to "? a-", the strip
step removes the question mark and the delimiter hyphen but keeps the now
leading space, and the whitespace replacement turns that space into a
leading hyphen. -/
theorem encode_name_violates_claimed_shape :
    encode_name "? a" = "-a" ∧ slugClaimOk (encode_name "? a") = false := by
  constructor
  · rfl
  · rfl

/-- C2 (amended): for every input string, the output of the slug encoder
contains only lowercase ASCII alphanumerics and hyphens and never
contains two consecutive hyphens; a leading or trailing hyphen, however,
can occur (see the counterexample). -/
theorem encode_name_lower_alnum_hyphen_no_double (s : String) :
    (encode_name s).data.all (fun c => isLowerAlnumChar c || c == '-') = true ∧
    noDoubleHyphen (encode_name s).data = true := by
  have hdata : (encode_name s).data = encodeNameList s.data := rfl
  rw [hdata]
  simp only [encodeNameList, collapseWs]
  constructor
  · rw [List.all_eq_true]
    intro c hc
    rcases mem_collapseWsAux false _ hc with rfl | ⟨hmem, hnws⟩
    · simp
    · have hfil := List.mem_filter.mp hmem
      have hkeep := hfil.2
      have hkeep1 : isAsciiAlnum c = true ∨ c = ' ' := by simpa using hkeep
      have halnum : isAsciiAlnum c = true := by
        rcases hkeep1 with h | hsp
        · exact h
        · exfalso
          rw [hsp] at hnws
          exact absurd hnws (by decide)
      have hnu : notUpper c = true := by
        have htrim := trimList_subset hfil.1
        rcases hpc : punycodeEncode (((trimList s.data).map toLowerChar).map Char.toNat)
          with _ | out
        · rw [hpc] at htrim
          cases htrim
        · rw [hpc] at htrim
          refine punycodeEncode_notUpper _ out hpc ?_ c htrim
          intro n hn _
          rcases List.mem_map.mp hn with ⟨d, hd, rfl⟩
          rcases List.mem_map.mp hd with ⟨y, hy, rfl⟩
          have := toLowerChar_notUpper y
          unfold notUpper at this
          split at this
          · cases this
          · rename_i hcond
            exact hcond
      have hlow : isLowerAlnumChar c = true := by
        unfold isAsciiAlnum at halnum
        unfold notUpper at hnu
        unfold isLowerAlnumChar
        split at halnum
        · rename_i hr
          split at hnu
          · cases hnu
          · rename_i hu
            split
            · rfl
            · rename_i hl
              omega
        · cases halnum
      simp [hlow]
  · refine noDouble_collapseWsAux _ false ?_
    intro c hcmem heqc
    have hkeep := (List.mem_filter.mp hcmem).2
    rw [heqc] at hkeep
    exact absurd hkeep (by decide)

/-! ### Claims C1, C8, C9: the cleanup task -/

/-- C1 (code bug): with CRON_KEY set to "secret" and the X-Cron-Key
header entirely absent, cleanup is not rejected: the source only
validates the key when the header is present, so the call proceeds and
performs the deletion (here removing one stale event and its person),
contradicting the claim and the route's own OpenAPI documentation,
which promises 401 for a missing or incorrect X-Cron-Key header. -/
theorem cleanup_missing_header_deletes :
    cleanup storeAdaptor (some "secret") none (days 100) oldStore =
      (Except.ok { event_count := 1, person_count := 1 },
       { oldStore with events := [], people := [], delete_calls := 1 }) := by
  rfl

/-- C8: with no CRON_KEY configured (the variable unset or set to the
empty string), cleanup never fails not-authorized, whatever the header
carries, and always proceeds to the bulk-delete body. -/
theorem cleanup_auth_disabled {σ : Type} (A : AdaptorOps σ) (env hdr : Option String)
    (now : Int) (s : σ) (henv : env = none ∨ env = some "") :
    cleanup A env hdr now s = cleanup_body A now s ∧
    (cleanup A env hdr now s).1 ≠ Except.error ApiError.NotAuthorized := by
  have hbody : (cleanup_body A now s).1 ≠ Except.error ApiError.NotAuthorized := by
    unfold cleanup_body
    rcases hdel : A.delete_events (now - days 90) s with ⟨r, s1⟩
    cases r with
    | error e => simp
    | ok v => simp
  have hmain : cleanup A env hdr now s = cleanup_body A now s := by
    unfold cleanup
    rcases henv with rfl | rfl
    · cases hdr <;> rfl
    · cases hdr with
      | none => rfl
      | some h => simp
  exact ⟨hmain, hmain ▸ hbody⟩

theorem cleanup_auth_disabled_witness :
    cleanup storeAdaptor none (some "anything") 0 emptyStore =
      cleanup_body storeAdaptor 0 emptyStore ∧
    (cleanup storeAdaptor none (some "anything") 0 emptyStore).1 ≠
      Except.error ApiError.NotAuthorized :=
  cleanup_auth_disabled storeAdaptor none (some "anything") 0 emptyStore (Or.inl rfl)

/-- C9: whenever the authorization gate passes, cleanup invokes the
adaptor's delete_events exactly once (the instrumentation counter rises
by exactly one) with cutoff timestamp now minus 90 days; under the
modelled adaptor contract exactly the events whose visited timestamp is
strictly older than that cutoff are removed, their people are cascaded,
and both counts are reported. -/
theorem cleanup_deletes_strictly_older (env hdr : Option String) (now : Int) (s : Store)
    (hgate : ∀ h k, hdr = some h → env = some k → k = "" ∨ h = k) :
    cleanup storeAdaptor env hdr now s =
      (Except.ok
        { event_count :=
            (s.events.filter (fun p => decide (p.2.visited_at < now - days 90))).length,
          person_count :=
            (s.people.filter (fun q =>
              ((s.events.filter (fun p => decide (p.2.visited_at < now - days 90))).map
                Prod.fst).contains q.1)).length },
       { s with
          events := s.events.filter (fun p => ! decide (p.2.visited_at < now - days 90)),
          people := s.people.filter (fun q =>
            ! ((s.events.filter (fun p => decide (p.2.visited_at < now - days 90))).map
                Prod.fst).contains q.1),
          delete_calls := s.delete_calls + 1 }) := by
  have hmain : cleanup storeAdaptor env hdr now s = cleanup_body storeAdaptor now s := by
    unfold cleanup
    cases hdr with
    | none => rfl
    | some h =>
      cases env with
      | none => rfl
      | some k =>
        rcases hgate h k rfl rfl with rfl | rfl
        · simp
        · simp
  rw [hmain]
  simp only [cleanup_body, storeAdaptor]

theorem cleanup_deletes_strictly_older_witness :
    cleanup storeAdaptor (some "secret") (some "secret") (days 100) oldStore =
      (Except.ok
        { event_count :=
            (oldStore.events.filter
              (fun p => decide (p.2.visited_at < days 100 - days 90))).length,
          person_count :=
            (oldStore.people.filter (fun q =>
              ((oldStore.events.filter
                (fun p => decide (p.2.visited_at < days 100 - days 90))).map
                  Prod.fst).contains q.1)).length },
       { oldStore with
          events := oldStore.events.filter
            (fun p => ! decide (p.2.visited_at < days 100 - days 90)),
          people := oldStore.people.filter (fun q =>
            ! ((oldStore.events.filter
              (fun p => decide (p.2.visited_at < days 100 - days 90))).map
                Prod.fst).contains q.1),
          delete_calls := oldStore.delete_calls + 1 }) :=
  cleanup_deletes_strictly_older (some "secret") (some "secret") (days 100) oldStore
    (by
      intro h k hh hk
      cases hh
      cases hk
      exact Or.inr rfl)

/-! ### Claim C10: get_event's not-found policy -/

/-- C10: get_event returns not-found exactly when the adaptor call
succeeds and reports the event absent; an adaptor failure is propagated
as an adaptor failure and is never converted into not-found. -/
theorem get_event_not_found_policy {σ : Type} (A : AdaptorOps σ) (event_id : String) (s : σ) :
    ((get_event A event_id s).1 = Except.error ApiError.NotFound ↔
      (A.get_event event_id s).1 = Except.ok none) ∧
    ((A.get_event event_id s).1 = Except.error () →
      (get_event A event_id s).1 = Except.error ApiError.AdaptorError ∧
      (get_event A event_id s).1 ≠ Except.error ApiError.NotFound) := by
  unfold get_event
  rcases hres : A.get_event event_id s with ⟨r, s1⟩
  cases r with
  | error e => simp [hres]
  | ok o =>
    cases o with
    | none => simp [hres]
    | some ev => simp [hres]

theorem get_event_not_found_policy_witness :
    (get_event failAdaptor "missing" ()).1 = Except.error ApiError.AdaptorError ∧
    (get_event (pureAdaptor (fun _ => none)) "missing" ()).1 =
      Except.error ApiError.NotFound :=
  ⟨((get_event_not_found_policy failAdaptor "missing" ()).2 rfl).1,
   ((get_event_not_found_policy (pureAdaptor (fun _ => none)) "missing" ()).1).mpr rfl⟩

/-! ### Claims C4, C5: the identifier retry loop -/

theorem allocate_id_pure_free (store : String → Option Event) (adjectives jellies : List String)
    (rng : Nat → Nat) (name : String) :
    ∀ (fuel : Nat) (id0 : String) (k k1 : Nat) (id : String),
      allocate_id (pureAdaptor store) adjectives jellies rng name fuel id0 k () =
        some (Except.ok id, (), k1) →
      store id = none := by
  intro fuel
  induction fuel with
  | zero =>
    intro id0 k k1 id h
    cases h
  | succ fuel ih =>
    intro id0 k k1 id h
    rcases hs : store id0 with _ | ev
    · simp only [allocate_id, pureAdaptor, hs] at h
      obtain ⟨h1, -⟩ : id0 = id ∧ k = k1 := by simpa using h
      rw [← h1]
      exact hs
    · simp only [allocate_id, pureAdaptor, hs] at h
      exact ih _ _ _ _ h

/-- C5: against a pure store the loop returns only an identifier whose
own probe reported it unused, hence one distinct from every identifier
any probe of the same allocation reported as existing; and with a
backend reporting taken on the first two probes and free on the third,
the allocator performs exactly three probes (the instrumented probe
counter ends at 3) and returns the third generated identifier. -/
theorem allocate_id_first_free :
    (∀ (store : String → Option Event) (adjectives jellies : List String) (rng : Nat → Nat)
      (name : String) (fuel : Nat) (id0 : String) (k k1 : Nat) (id : String),
      allocate_id (pureAdaptor store) adjectives jellies rng name fuel id0 k () =
        some (Except.ok id, (), k1) →
      store id = none ∧ ∀ (i : String) (e : Event), store i = some e → ¬ id = i) ∧
    generate_id ["red"] ["fox"] idStream 0 "test" = ("test-100000", 1) ∧
    generate_id ["red"] ["fox"] idStream 1 "test" = ("test-100001", 2) ∧
    generate_id ["red"] ["fox"] idStream 2 "test" = ("test-100002", 3) ∧
    allocate_id (probeCountAdaptor 2 dummyEvent) ["red"] ["fox"] idStream "test" 5
      "test-100000" 1 0 = some (Except.ok "test-100002", 3, 3) := by
  refine ⟨?_, rfl, rfl, rfl, rfl⟩
  intro store adjectives jellies rng name fuel id0 k k1 id h
  have hfree := allocate_id_pure_free store adjectives jellies rng name fuel id0 k k1 id h
  refine ⟨hfree, ?_⟩
  intro i e he heq
  rw [heq] at hfree
  rw [hfree] at he
  cases he

theorem allocate_id_first_free_witness :
    c5store "a" = none ∧ ¬ "a" = "b" :=
  ⟨(allocate_id_first_free.1 c5store ["red"] ["fox"] idStream "x" 1 "a" 0 0 "a" rfl).1,
   (allocate_id_first_free.1 c5store ["red"] ["fox"] idStream "x" 1 "a" 0 0 "a" rfl).2
     "b" dummyEvent rfl⟩

/-- C4 (counterexample): for a name whose encoding is degenerate (the
empty string here) a retried identifier does not keep the slug of the
previously probed identifier: generate_id draws a fresh random display
name on every call, so after a collision on "red-fox-jelly-100002" the
loop generates, probes and returns "blue-fox-jelly-100005", whose slug
component differs. -/
theorem allocate_id_degenerate_slug_changes :
    generate_id ["red", "blue"] ["fox"] idStream 0 "" = ("red-fox-jelly-100002", 3) ∧
    allocate_id (probeCountAdaptor 1 dummyEvent) ["red", "blue"] ["fox"] idStream "" 5
      "red-fox-jelly-100002" 3 0 = some (Except.ok "blue-fox-jelly-100005", 2, 6) ∧
    ¬ slugOf "red-fox-jelly-100002" = slugOf "blue-fox-jelly-100005" := by
  refine ⟨rfl, rfl, ?_⟩
  decide

/-- C4 (amended): when the candidate name's encoding is non-degenerate,
every identifier generated in the retry loop keeps the same slug
component, encode_name of the name, whatever the draw index; only the
numeric suffix is redrawn.  For degenerate encodings the slug is derived
from a fresh random name on each attempt and can change between
retries. -/
theorem generate_id_slug_stable (adjectives jellies : List String) (rng : Nat → Nat)
    (k k1 : Nat) (name : String)
    (hnd : ¬ ((encode_name name).data.filter (fun c => ! (c == '-'))).isEmpty = true) :
    (generate_id adjectives jellies rng k name).1 =
      encode_name name ++ "-" ++ toString (100000 + rng k % 900000) ∧
    (generate_id adjectives jellies rng k1 name).1 =
      encode_name name ++ "-" ++ toString (100000 + rng k1 % 900000) := by
  constructor <;> simp [generate_id, hnd]

theorem generate_id_slug_stable_witness :
    (generate_id ["red"] ["fox"] idStream 0 "test").1 =
      encode_name "test" ++ "-" ++ toString (100000 + idStream 0 % 900000) ∧
    (generate_id ["red"] ["fox"] idStream 1 "test").1 =
      encode_name "test" ++ "-" ++ toString (100000 + idStream 1 % 900000) :=
  generate_id_slug_stable ["red"] ["fox"] idStream 0 1 "test" (by decide)

/-! ### Claim C6: identifier format -/

theorem isAsciiAlnum_congr {a b : Char} (h : a.toNat = b.toNat) :
    isAsciiAlnum a = isAsciiAlnum b := by
  unfold isAsciiAlnum
  rw [h]

theorem isRustWs_congr {a b : Char} (h : a.toNat = b.toNat) :
    isRustWs a = isRustWs b := by
  unfold isRustWs
  rw [h]

theorem getD_mem_or_default (l : List String) (i : Nat) (d : String) :
    l.getD i d ∈ l ∨ l.getD i d = d := by
  by_cases hi : i < l.length
  · left
    rw [List.getD_eq_getElem l d hi]
    exact List.getElem_mem hi
  · right
    exact List.getD_eq_default l d (by omega)

/-- If a list of only-ASCII characters contains an ASCII alphanumeric
character, the slug encoding of that list is non-empty: the character
survives trimming, lowering, punycode (which passes basic code points
through), the strip and the whitespace collapse. -/
theorem encodeNameList_ne_nil {l : List Char} (hascii : ∀ c ∈ l, c.toNat < 128)
    {c : Char} (hc : c ∈ l) (halnum : isAsciiAlnum c = true) :
    ¬ encodeNameList l = [] := by
  intro hnil
  have hw : isRustWs c = false := alnum_not_ws halnum
  have h1 : c ∈ trimList l := mem_trimList hc hw
  have h2 : toLowerChar c ∈ (trimList l).map toLowerChar := List.mem_map_of_mem _ h1
  have h2alnum : isAsciiAlnum (toLowerChar c) = true := toLowerChar_alnum halnum
  have hcodes : ∀ n ∈ ((trimList l).map toLowerChar).map Char.toNat, n < 128 := by
    intro n hn
    rcases List.mem_map.mp hn with ⟨d, hd, rfl⟩
    rcases List.mem_map.mp hd with ⟨y, hy, rfl⟩
    exact toLowerChar_lt_128 (hascii y (trimList_subset hy))
  have hpc := punycodeEncode_all_basic (((trimList l).map toLowerChar).map Char.toNat) hcodes
  have hlow128 : (toLowerChar c).toNat < 128 :=
    toLowerChar_lt_128 (hascii c hc)
  have htonat : (Char.ofNat (toLowerChar c).toNat).toNat = (toLowerChar c).toNat :=
    toNat_ofNat_small _ hlow128
  have h3 : Char.ofNat (toLowerChar c).toNat ∈
      ((((trimList l).map toLowerChar).map Char.toNat).map Char.ofNat ++
        (if 0 < (((trimList l).map toLowerChar).map Char.toNat).length then ['-'] else [])) :=
    List.mem_append_left _ (List.mem_map_of_mem _ (List.mem_map_of_mem _ h2))
  have h3alnum : isAsciiAlnum (Char.ofNat (toLowerChar c).toNat) = true := by
    rw [isAsciiAlnum_congr htonat]
    exact h2alnum
  have h3w : isRustWs (Char.ofNat (toLowerChar c).toNat) = false := alnum_not_ws h3alnum
  have h4 := mem_trimList h3 h3w
  have h5 : Char.ofNat (toLowerChar c).toNat ∈
      (trimList ((((trimList l).map toLowerChar).map Char.toNat).map Char.ofNat ++
        (if 0 < (((trimList l).map toLowerChar).map Char.toNat).length then ['-'] else
          []))).filter (fun x => isAsciiAlnum x || x == ' ') :=
    List.mem_filter.mpr ⟨h4, by rw [h3alnum]; rfl⟩
  have h6 := mem_collapseWsAux_of_mem h3w false _ h5
  have hrw : encodeNameList l =
      collapseWsAux false
        ((trimList ((((trimList l).map toLowerChar).map Char.toNat).map Char.ofNat ++
          (if 0 < (((trimList l).map toLowerChar).map Char.toNat).length then ['-'] else
            []))).filter (fun x => isAsciiAlnum x || x == ' ')) := by
    simp only [encodeNameList, collapseWs, hpc, Option.getD_some]
  rw [hrw] at hnil
  rw [hnil] at h6
  cases h6

/-- The lemma `encodeNameList_ne_nil` restated on strings. -/
theorem encode_name_ne_empty {s : String} (hascii : ∀ c ∈ s.data, c.toNat < 128)
    {c : Char} (hc : c ∈ s.data) (halnum : isAsciiAlnum c = true) :
    ¬ encode_name s = "" := by
  intro heq
  exact encodeNameList_ne_nil hascii hc halnum (congrArg String.data heq)

theorem generate_name_ascii (adjectives jellies : List String) (r1 r2 : Nat)
    (hadj : ∀ w ∈ adjectives, ∀ c ∈ w.data, c.toNat < 128)
    (hjel : ∀ w ∈ jellies, ∀ c ∈ w.data, c.toNat < 128) :
    ∀ c ∈ (generate_name adjectives jellies r1 r2).data, c.toNat < 128 := by
  unfold generate_name
  intro c hcmem
  rw [String.data_append, String.data_append, String.data_append] at hcmem
  have hblank : ∀ x ∈ (" " : String).data, x.toNat < 128 := by decide
  have hjelly : ∀ x ∈ (" Jelly" : String).data, x.toNat < 128 := by decide
  rcases List.mem_append.mp hcmem with h1 | h2
  · rcases List.mem_append.mp h1 with h3 | h4
    · rcases List.mem_append.mp h3 with h5 | h6
      · rcases getD_mem_or_default adjectives (r1 % adjectives.length) "" with hm | hdft
        · exact hadj _ hm c h5
        · rw [hdft] at h5
          cases h5
      · exact hblank c h6
    · rcases getD_mem_or_default jellies (r2 % jellies.length) "" with hm | hdft
      · exact hjel _ hm c h4
      · rw [hdft] at h4
        cases h4
  · exact hjelly c h2

theorem generate_name_has_y (adjectives jellies : List String) (r1 r2 : Nat) :
    ('y' : Char) ∈ (generate_name adjectives jellies r1 r2).data := by
  unfold generate_name
  rw [String.data_append]
  refine List.mem_append_right _ ?_
  decide

/-- C6: every identifier the allocator generates has the form
slug ++ "-" ++ number with the numeric suffix drawn from the inclusive
range 100000..999999 (hence six digits) and a non-empty slug component,
for every input name including those whose encoding is degenerate —
provided the two word lists (modelled parameters standing for the
resource files, which are not among the sources) contain only ASCII
words, so that the hard-coded " Jelly" suffix of a regenerated name
survives encoding. -/
theorem generate_id_format (adjectives jellies : List String) (rng : Nat → Nat) (k : Nat)
    (name : String)
    (hadj : ∀ w ∈ adjectives, ∀ c ∈ w.data, c.toNat < 128)
    (hjel : ∀ w ∈ jellies, ∀ c ∈ w.data, c.toNat < 128) :
    ∃ slug num, (generate_id adjectives jellies rng k name).1 = slug ++ "-" ++ toString num ∧
      ¬ slug = "" ∧ 100000 ≤ num ∧ num ≤ 999999 := by
  have hnum : ∀ j : Nat, 100000 ≤ 100000 + rng j % 900000 ∧ 100000 + rng j % 900000 ≤ 999999 := by
    intro j
    have := Nat.mod_lt (rng j) (y := 900000) (by omega)
    omega
  by_cases hdeg : ((encode_name name).data.filter (fun c => ! (c == '-'))).isEmpty = true
  · refine ⟨encode_name (generate_name adjectives jellies (rng k) (rng (k + 1))),
      100000 + rng (k + 2) % 900000, ?_, ?_, (hnum (k + 2)).1, (hnum (k + 2)).2⟩
    · unfold generate_id
      rw [if_pos hdeg]
    · exact encode_name_ne_empty
        (generate_name_ascii adjectives jellies (rng k) (rng (k + 1)) hadj hjel)
        (generate_name_has_y adjectives jellies (rng k) (rng (k + 1))) (by decide)
  · refine ⟨encode_name name, 100000 + rng k % 900000, ?_, ?_, (hnum k).1, (hnum k).2⟩
    · unfold generate_id
      rw [if_neg hdeg]
    · intro heq
      rw [heq] at hdeg
      exact hdeg rfl

theorem generate_id_format_witness :
    ∃ slug num, (generate_id ["red"] ["fox"] idStream 0 "").1 = slug ++ "-" ++ toString num ∧
      ¬ slug = "" ∧ 100000 ≤ num ∧ num ≤ 999999 :=
  generate_id_format ["red"] ["fox"] idStream 0 "" (by decide) (by decide)

/-! ### Claims C3, C7: the create-event orchestrator -/

theorem allocate_id_storeAdaptor_state (adjectives jellies : List String) (rng : Nat → Nat)
    (name : String) :
    ∀ (fuel : Nat) (id0 : String) (k : Nat) (s : Store) (r : Except ApiError String)
      (s1 : Store) (k1 : Nat),
      allocate_id storeAdaptor adjectives jellies rng name fuel id0 k s = some (r, s1, k1) →
      s1.events = s.events ∧ s1.counter = s.counter ∧ s1.inc_fails = s.inc_fails ∧
        ∃ id : String, r = Except.ok id := by
  intro fuel
  induction fuel with
  | zero =>
    intro id0 k s r s1 k1 h
    cases h
  | succ fuel ih =>
    intro id0 k s r s1 k1 h
    rcases hl : lookupEvent s.events id0 with _ | ev
    · simp only [allocate_id, storeAdaptor, hl, Option.some.injEq, Prod.mk.injEq] at h
      obtain ⟨h1, h2, h3⟩ := h
      subst h2
      exact ⟨rfl, rfl, rfl, id0, h1.symm⟩
    · simp only [allocate_id, storeAdaptor, hl] at h
      obtain ⟨hev, hcnt, hinc, hid⟩ := ih _ _ _ _ _ _ h
      exact ⟨hev, hcnt, hinc, hid⟩

theorem create_event_storeAdaptor_cases (adjectives jellies : List String) (rng : Nat → Nat)
    (fuel : Nat) (now : Int) (input : EventInput) (s : Store)
    (r : Except ApiError (Nat × Event)) (s1 : Store)
    (heq : create_event storeAdaptor adjectives jellies rng fuel now input s =
      some (r, s1)) :
    ∃ (id : String) (sa : Store),
      sa.events = s.events ∧ sa.counter = s.counter ∧ sa.inc_fails = s.inc_fails ∧
      ((s.inc_fails = true ∧ r = Except.error ApiError.AdaptorError ∧
        s1 = { sa with events :=
          (id, mkEvent id (resolve_name adjectives jellies rng input).1 now input) ::
            sa.events }) ∨
       (s.inc_fails = false ∧
        r = Except.ok
          (201, mkEvent id (resolve_name adjectives jellies rng input).1 now input) ∧
        s1 = { sa with
          events :=
            (id, mkEvent id (resolve_name adjectives jellies rng input).1 now input) ::
              sa.events,
          counter := sa.counter + 1 })) := by
  simp only [create_event] at heq
  rcases halloc : allocate_id storeAdaptor adjectives jellies rng
      (resolve_name adjectives jellies rng input).1 fuel
      (generate_id adjectives jellies rng (resolve_name adjectives jellies rng input).2
        (resolve_name adjectives jellies rng input).1).1
      (generate_id adjectives jellies rng (resolve_name adjectives jellies rng input).2
        (resolve_name adjectives jellies rng input).1).2 s
    with _ | ⟨ra, sa, ka⟩
  · rw [halloc] at heq
    cases heq
  · rw [halloc] at heq
    obtain ⟨hev, hcnt, hinc, id', hra⟩ :=
      allocate_id_storeAdaptor_state adjectives jellies rng
        (resolve_name adjectives jellies rng input).1 fuel _ _ s ra sa ka halloc
    subst hra
    simp only [storeAdaptor] at heq
    by_cases hf : sa.inc_fails = true
    · simp only [hf, ite_true, Option.some.injEq, Prod.mk.injEq] at heq
      obtain ⟨hr, hs1⟩ := heq
      refine ⟨id', sa, hev, hcnt, hinc, Or.inl ⟨by rw [← hinc]; exact hf, hr.symm, ?_⟩⟩
      rw [← hs1, hf]
      rfl
    · rw [Bool.not_eq_true] at hf
      simp only [hf, Bool.false_eq_true, ite_false, Option.some.injEq,
        Prod.mk.injEq] at heq
      obtain ⟨hr, hs1⟩ := heq
      refine ⟨id', sa, hev, hcnt, hinc, Or.inr ⟨by rw [← hinc]; exact hf, hr.symm, ?_⟩⟩
      rw [← hs1, hf]
      rfl

/-- C7: in create_event the global counter moves only together with a
persisted event (whenever the final counter differs from the initial
one, it rose by exactly one and the new event is in storage), and when
the counter increment fails the operation reports an adaptor failure
while the already-created event stays in storage: the write is not
rolled back and the counter is unchanged. -/
theorem create_event_counter_after_write (adjectives jellies : List String)
    (rng : Nat → Nat) (fuel : Nat) (now : Int) (input : EventInput) (s : Store)
    (r : Except ApiError (Nat × Event)) (s1 : Store)
    (heq : create_event storeAdaptor adjectives jellies rng fuel now input s =
      some (r, s1)) :
    (¬ s1.counter = s.counter →
      s1.counter = s.counter + 1 ∧ ∃ id ev, s1.events = (id, ev) :: s.events) ∧
    (s.inc_fails = true →
      r = Except.error ApiError.AdaptorError ∧ s1.counter = s.counter ∧
      ∃ id ev, s1.events = (id, ev) :: s.events) := by
  obtain ⟨id, sa, hev, hcnt, hinc, hcase⟩ :=
    create_event_storeAdaptor_cases adjectives jellies rng fuel now input s r s1 heq
  rcases hcase with ⟨hf, hr, hs1⟩ | ⟨hf, hr, hs1⟩
  · subst hs1
    constructor
    · intro hne
      exact absurd hcnt hne
    · intro _
      exact ⟨hr, hcnt, id, _, by rw [hev]⟩
  · subst hs1
    constructor
    · intro _
      refine ⟨by rw [hcnt], id, _, by rw [hev]⟩
    · intro hfail
      rw [hfail] at hf
      cases hf

theorem create_event_counter_after_write_witness :
    c7pair.1 = Except.error ApiError.AdaptorError ∧
    c7pair.2.counter = incFailStore.counter ∧
    ∃ id ev, c7pair.2.events = (id, ev) :: incFailStore.events :=
  (create_event_counter_after_write ["red"] ["fox"] idStream 3 0 noneInput incFailStore
    c7pair.1 c7pair.2 (by rfl)).2 (by rfl)

theorem resolve_name_of_empty (adjectives jellies : List String) (rng : Nat → Nat)
    (input : EventInput) (hname : input.name = none ∨ input.name = some "") :
    resolve_name adjectives jellies rng input =
      (generate_name adjectives jellies (rng 0) (rng 1), 2) := by
  rcases hname with h | h <;> simp [resolve_name, h]

theorem generate_name_mem (adjectives jellies : List String) (r1 r2 : Nat)
    (hadj : ¬ adjectives = []) (hjel : ¬ jellies = []) :
    ∃ a ∈ adjectives, ∃ j ∈ jellies,
      generate_name adjectives jellies r1 r2 = a ++ " " ++ j ++ " Jelly" := by
  have hla : 0 < adjectives.length := List.length_pos.mpr hadj
  have hlj : 0 < jellies.length := List.length_pos.mpr hjel
  refine ⟨adjectives.getD (r1 % adjectives.length) "", ?_,
    jellies.getD (r2 % jellies.length) "", ?_, rfl⟩
  · rw [List.getD_eq_getElem _ _ (Nat.mod_lt _ hla)]
    exact List.getElem_mem _
  · rw [List.getD_eq_getElem _ _ (Nat.mod_lt _ hlj)]
    exact List.getElem_mem _

/-- C3 (counterexample): a whitespace-only name is not regenerated.
With name " " the emptiness guard (which inspects the string before
trimming) accepts it, the stored display name is the trimmed empty
string, and so it is not the (only possible) generated name of the
configured word lists — in particular it does not match
word-space-word-space-"Jelly". -/
theorem create_event_whitespace_name_not_generated :
    (create_event storeAdaptor ["red"] ["fox"] idStream 5 0 wsInput emptyStore).map
        (fun p => p.1.map (fun q => q.2.name)) = some (Except.ok "") ∧
    ¬ ("" : String) = "red" ++ " " ++ "fox" ++ " Jelly" := by
  constructor
  · rfl
  · decide

/-- C3 (amended): when the name field is absent, or the provided name is
the empty string (the source checks emptiness before trimming, so a
whitespace-only name is not regenerated), the Name Generator supplies
the display name and the stored event's name has the shape
word, space, word, space, "Jelly" with the words drawn from the two
word lists. -/
theorem create_event_empty_name_generated (adjectives jellies : List String)
    (rng : Nat → Nat) (fuel : Nat) (now : Int) (input : EventInput) (s : Store)
    (r : Nat × Event) (s1 : Store)
    (hadj : ¬ adjectives = []) (hjel : ¬ jellies = [])
    (hname : input.name = none ∨ input.name = some "")
    (heq : create_event storeAdaptor adjectives jellies rng fuel now input s =
      some (Except.ok r, s1)) :
    ∃ a ∈ adjectives, ∃ j ∈ jellies, r.2.name = a ++ " " ++ j ++ " Jelly" := by
  obtain ⟨id, sa, hev, hcnt, hinc, hcase⟩ :=
    create_event_storeAdaptor_cases adjectives jellies rng fuel now input s
      (Except.ok r) s1 heq
  rcases hcase with ⟨hf, hr, hs1⟩ | ⟨hf, hr, hs1⟩
  · cases hr
  · have hrr : r =
        (201, mkEvent id (resolve_name adjectives jellies rng input).1 now input) := by
      injection hr with h1
    obtain ⟨a, ha, j, hj, hgen⟩ :=
      generate_name_mem adjectives jellies (rng 0) (rng 1) hadj hjel
    refine ⟨a, ha, j, hj, ?_⟩
    rw [hrr]
    show (resolve_name adjectives jellies rng input).1 = a ++ " " ++ j ++ " Jelly"
    rw [resolve_name_of_empty adjectives jellies rng input hname]
    exact hgen

theorem create_event_empty_name_generated_witness :
    ∃ a ∈ ["red"], ∃ j ∈ ["fox"],
      ((201, c3event) : Nat × Event).2.name = a ++ " " ++ j ++ " Jelly" :=
  create_event_empty_name_generated ["red"] ["fox"] idStream 3 0 noneInput emptyStore
    (201, c3event) c3store1 (by decide) (by decide) (Or.inl rfl) (by rfl)
